import Mathlib

/-!
Verification development for the Context-Pruner repository.

The embedding covers the three source modules:
* the scorer (message importance scoring and the repetitive-tool-output
  detector),
* the pruning engine (tool call/result pairing, protected zones, greedy
  score-ordered removal, token estimation),
* the configuration resolver with its defensive clamping.

Modelling conventions:
* JavaScript strings are modelled as `List Char`; lengths and slices count
  code points.
* JavaScript numbers are modelled as `ℚ` (all score arithmetic in the source
  uses small decimal constants combined with `min`/`max`/`+`, which `ℚ`
  models exactly); division by zero follows the `ℚ` convention.
* JavaScript regular expression tests are translated into executable
  character-list scanners that implement the same matching semantics.
* `Map`/`Set` values are modelled as `Finset ℕ` (the code only ever queries
  membership and size, both order-independent).
-/

set_option autoImplicit false

namespace ContextPruner

/-! ### Character classes and basic string helpers -/

/-- Whitespace recognised by the JavaScript `trim` and regex whitespace class. -/
def isJsSpace (c : Char) : Bool :=
  c = ' ' || c = '\t' || c = '\n' || c = '\r' || c = '\x0b' || c = '\x0c' ||
  c = Char.ofNat 0xa0 || c = Char.ofNat 0xfeff || c = Char.ofNat 0x1680 ||
  (decide (Char.ofNat 0x2000 ≤ c) && decide (c ≤ Char.ofNat 0x200a)) ||
  c = Char.ofNat 0x2028 || c = Char.ofNat 0x2029 || c = Char.ofNat 0x202f ||
  c = Char.ofNat 0x205f || c = Char.ofNat 0x3000

/-- Line terminators (the characters a JavaScript regex dot never matches). -/
def isLineTerm (c : Char) : Bool :=
  c = '\n' || c = '\r' || c = Char.ofNat 0x2028 || c = Char.ofNat 0x2029

/-- Word characters of the regex word class. -/
def isWordChar (c : Char) : Bool :=
  c.isAlpha || c.isDigit || c = '_'

/-- JavaScript `String.prototype.trim`: strip leading and trailing whitespace. -/
def jsTrim (l : List Char) : List Char :=
  ((l.dropWhile isJsSpace).reverse.dropWhile isJsSpace).reverse

/-- Match a literal pattern at the head of the input; on success return the rest. -/
def eatLit : List Char → List Char → Option (List Char)
  | [], rest => some rest
  | _ :: _, [] => none
  | p :: ps, c :: cs => if p = c then eatLit ps cs else none

/-- JavaScript `split` at newline characters, on a character list. -/
def splitNL : List Char → List (List Char)
  | [] => [[]]
  | c :: rest =>
    if c = '\n' then [] :: splitNL rest
    else
      match splitNL rest with
      | h :: t => (c :: h) :: t
      | [] => [[c]]

/-! ### Scorer regular expressions

Each constant regex of the scorer module is translated into an executable
test over `List Char` with the same acceptance condition. -/

/-- Alternatives of the first low-value pattern (short acknowledgements),
anchored on both sides with an optional trailing period, case-insensitive. -/
def ackWords : List String :=
  ["ok", "okay", "k", "sure", "thanks", "thank you", "got it", "sounds good",
   "yep", "yes", "no", "nope", "alright", "cool", "nice", "great", "perfect",
   "understood", "ack", "ty", "thx", "np", "mhm", "yup", "ya", "right"]

/-- Alternatives of the second low-value pattern (greetings). -/
def greetWords : List String :=
  ["hi", "hello", "hey", "good morning", "good afternoon", "good evening",
   "howdy", "yo", "sup"]

/-- Test of the two anchored low-value regexes: the whole (already trimmed)
text must equal one alternative, optionally followed by a single period,
compared case-insensitively. -/
def matchesLowValue (s : List Char) : Bool :=
  (ackWords ++ greetWords).any fun w =>
    s.map Char.toLower == w.data || s.map Char.toLower == w.data ++ ['.']

/-- Scan for a triple-backtick fence; on success return the text after it. -/
def afterFence : List Char → Option (List Char)
  | [] => none
  | c :: rest =>
    match eatLit "\x60\x60\x60".data (c :: rest) with
    | some r => some r
    | none => afterFence rest

/-- Test of the fenced-code-block regex: a fence, lazily anything, a fence;
equivalently, two non-overlapping triple-backtick occurrences. -/
def codeBlockTest (l : List Char) : Bool :=
  match afterFence l with
  | some rest => (afterFence rest).isSome
  | none => false

/-- Count of global matches of the inline-code regex (backtick, one or more
non-backtick characters, backtick), scanning left to right without overlap.
The state records whether a candidate opening backtick is pending and whether
at least one inner character has been consumed. -/
def countInlineAux : List Char → Option Bool → Nat
  | [], _ => 0
  | '\x60' :: rest, none => countInlineAux rest (some false)
  | '\x60' :: rest, some false => countInlineAux rest (some false)
  | '\x60' :: rest, some true => countInlineAux rest none + 1
  | _ :: rest, none => countInlineAux rest none
  | _ :: rest, some _ => countInlineAux rest (some true)

/-- Number of inline-code spans in the text. -/
def countInline (l : List Char) : Nat :=
  countInlineAux l none

/-- After a literal occurrence of a word-boundary pattern, the next character
must not be a word character. -/
def boundaryAfter : List Char → Bool
  | [] => true
  | c :: _ => !isWordChar c

/-- Scan for a literal alternative wrapped in word boundaries; `prev` is the
character preceding the current position. -/
def hasWordLitAux (pat : List Char) (prev : Option Char) : List Char → Bool
  | [] => false
  | c :: rest =>
    ((match prev with
      | none => true
      | some p => !isWordChar p) &&
     (match eatLit pat (c :: rest) with
      | some r => boundaryAfter r
      | none => false)) ||
    hasWordLitAux pat (some c) rest

/-- Word-boundary search for one literal alternative. -/
def hasWordLit (pat : String) (l : List Char) : Bool :=
  hasWordLitAux pat.data none l

/-- Continuation of the alternative "use", dot-plus, "instead": consume one or
more non-line-terminator characters, then the literal tail with a closing
word boundary. -/
def afterUse : List Char → Bool
  | [] => false
  | c :: rest =>
    if isLineTerm c then false
    else
      (match eatLit " instead".data rest with
       | some t => boundaryAfter t
       | none => false) ||
      afterUse rest

/-- Scan for the "use", dot-plus, "instead" alternative with its leading word
boundary. -/
def scanUseInstead (prev : Option Char) : List Char → Bool
  | [] => false
  | c :: rest =>
    ((match prev with
      | none => true
      | some p => !isWordChar p) &&
     (match eatLit "use ".data (c :: rest) with
      | some r => afterUse r
      | none => false)) ||
    scanUseInstead (some c) rest

/-- Literal alternatives of the three decision/preference regexes (all tested
case-insensitively inside word boundaries). -/
def decisionWords : List String :=
  ["always", "never", "prefer", "must", "should not", "don\x27t ever", "do not",
   "decision", "decided", "let\x27s go with", "going with", "settled on",
   "the plan is",
   "requirement", "constraint", "rule", "convention", "standard"]

/-- Test of the decision/preference patterns. -/
def decisionTest (text : List Char) : Bool :=
  decisionWords.any (fun w => hasWordLit w (text.map Char.toLower)) ||
  scanUseInstead none (text.map Char.toLower)

/-- Literal alternatives of the first error regex. -/
def errorWords : List String :=
  ["error", "exception", "traceback", "stack trace", "failed", "failure",
   "crash", "panic", "segfault"]

/-- Match a colon followed by one or more digits; return the rest. -/
def eatColonDigits : List Char → Option (List Char)
  | ':' :: rest =>
    if (rest.takeWhile Char.isDigit).isEmpty then none
    else some (rest.dropWhile Char.isDigit)
  | _ => none

/-- After the literal "at " of the stack-trace regex: one or more
non-line-terminator characters, then colon-digits twice. -/
def afterAt : List Char → Bool
  | [] => false
  | c :: rest =>
    if isLineTerm c then false
    else
      (match eatColonDigits rest with
       | some r => (eatColonDigits r).isSome
       | none => false) ||
      afterAt rest

/-- Substring scan for the stack-trace-line regex (case-sensitive, not
word-bounded). -/
def scanAt : List Char → Bool
  | [] => false
  | c :: rest =>
    (match eatLit "at ".data (c :: rest) with
     | some r => afterAt r
     | none => false) ||
    scanAt rest

/-- File extensions of the source-location regex. -/
def srcExts : List String :=
  ["ts", "js", "py", "go", "rs", "java", "rb", "c", "cpp", "h"]

/-- Match a period, a known extension, and colon-digits. -/
def dotExtColon (l : List Char) : Bool :=
  match l with
  | '.' :: r =>
    srcExts.any fun e =>
      match eatLit e.data r with
      | some r2 => (eatColonDigits r2).isSome
      | none => false
  | _ => false

/-- After the keyword of the source-location regex: one or more
non-line-terminator characters, then period-extension-colon-digits. -/
def afterSrcKw : List Char → Bool
  | [] => false
  | c :: rest =>
    if isLineTerm c then false
    else dotExtColon rest || afterSrcKw rest

/-- Try the multiline source-location regex at one line start: optional
whitespace, a keyword, then the location tail. -/
def lineStartTry (l : List Char) : Bool :=
  ["at ", "in ", "from "].any fun kw =>
    match eatLit kw.data (l.dropWhile isJsSpace) with
    | some r => afterSrcKw r
    | none => false

/-- Scan every line start (positions following a line terminator) for the
source-location regex. -/
def scanLineStarts : List Char → Bool
  | [] => false
  | c :: rest =>
    (isLineTerm c && lineStartTry rest) || scanLineStarts rest

/-- Test of the three error/failure patterns. -/
def errorTest (text : List Char) : Bool :=
  errorWords.any (fun w => hasWordLit w (text.map Char.toLower)) ||
  scanAt text ||
  lineStartTry text || scanLineStarts text

/-- After "http", an optional "s", then "://" and at least one non-space
character. -/
def urlTail (r : List Char) : Bool :=
  (match eatLit "://".data r with
   | some (c :: _) => !isJsSpace c
   | _ => false) ||
  (match r with
   | 's' :: rr =>
     match eatLit "://".data rr with
     | some (c :: _) => !isJsSpace c
     | _ => false
   | _ => false)

/-- Substring scan for the URL regex. -/
def scanUrl : List Char → Bool
  | [] => false
  | c :: rest =>
    (match eatLit "http".data (c :: rest) with
     | some r => urlTail r
     | none => false) ||
    scanUrl rest

/-- Characters allowed in a path segment of the file-path regex. -/
def isPathChar (c : Char) : Bool :=
  isWordChar c || c = '.' || c = '-'

/-- Match a slash followed by one or more path characters; return the rest. -/
def eatSlashSeg : List Char → Option (List Char)
  | '/' :: rest =>
    if (rest.takeWhile isPathChar).isEmpty then none
    else some (rest.dropWhile isPathChar)
  | _ => none

/-- Substring scan for two consecutive slash-segment groups. -/
def scanPath : List Char → Bool
  | [] => false
  | c :: rest =>
    (match eatSlashSeg (c :: rest) with
     | some r => (eatSlashSeg r).isSome
     | none => false) ||
    scanPath rest

/-- Test of the two reference patterns (URL or multi-segment file path). -/
def referenceTest (text : List Char) : Bool :=
  scanUrl text || scanPath text

/-! ### Data model -/

/-- One entry of a structured content array: a typed part with optional text. -/
structure ContentPart where
  type : String
  text : Option String
deriving DecidableEq

/-- Message content: either a plain string or an array of typed parts. -/
inductive MessageContent where
  | str (s : String)
  | parts (l : List ContentPart)
deriving DecidableEq

/-- One tool-call descriptor; the source treats these as opaque values and
reads only the `id` field, so only that field is modelled. -/
structure ToolCall where
  id : Option String
deriving DecidableEq

/-- A conversational message. Optional fields model absent JavaScript
properties as `none`. -/
structure Message where
  role : String
  content : Option MessageContent
  tool_call_id : Option String
  tool_calls : Option (List ToolCall)
  name : Option String
deriving DecidableEq

/-- Placeholder used for the (never reached) out-of-range list accesses. -/
def blankMessage : Message :=
  ⟨"", none, none, none, none⟩

/-- Extract plain text from a message payload: a string content directly, an
array content by joining the text of its truthy text parts with newlines,
anything else as empty. -/
def extractText (m : Message) : List Char :=
  match m.content with
  | some (.str s) => s.data
  | some (.parts l) =>
    List.intercalate ['\n']
      ((l.filter fun p =>
          p.type = "text" &&
          (match p.text with
           | some t => decide (t ≠ "")
           | none => false)).map fun p => (p.text.getD "").data)
  | none => []

/-- JavaScript truthiness of the `content` field: missing and the empty
string are falsy, every array is truthy. -/
def contentTruthy (m : Message) : Bool :=
  match m.content with
  | some (.str s) => decide (s ≠ "")
  | some (.parts _) => true
  | none => false

/-- JavaScript truthiness of `tool_calls` combined with a non-empty length
check. -/
def toolCallsFlag (m : Message) : Bool :=
  match m.tool_calls with
  | some l => decide (0 < l.length)
  | none => false

/-! ### The scorer -/

/-- One raise-to-at-least scoring rule: when the test fires, the running
score becomes at least the rule's value. -/
def raiseTo (b : Bool) (c s : ℚ) : ℚ :=
  if b then max s c else s

/-- Importance score of one message, translated rule by rule from the source.
Later rules only raise a running maximum (each written with `raiseTo`),
except the two short circuits, the short-message deduction, and the user
bonus. -/
def scoreMessage (msg : Message) : ℚ :=
  let text := extractText msg
  if text = [] ∧ contentTruthy msg = true then 0.5
  else if text = [] then 0.1
  else if msg.role = "tool" then 0.45
  else if toolCallsFlag msg = true then 0.5
  else
    let trimmed := jsTrim text
    if matchesLowValue trimmed = true then 0.1
    else
      let s0 : ℚ :=
        if trimmed.length < 20 ∧ codeBlockTest trimmed = false
        then max ((0.4 : ℚ) - 0.15) 0.15 else 0.4
      let s9 :=
        raiseTo (decide (msg.role = "system")) 0.5
          (raiseTo (decide (2000 < text.length)) 0.65
            (raiseTo (decide (500 < text.length)) 0.55
              (raiseTo (referenceTest text) 0.55
                (raiseTo (errorTest text) 0.65
                  (raiseTo (decisionTest text) 0.75
                    (raiseTo (decide (3 ≤ countInline text)) 0.65
                      (raiseTo (codeBlockTest text) 0.8 s0)))))))
      min (if msg.role = "user" then min (s9 + 0.1) 1 else s9) 1

/-- Replace every run of digits and periods by a single placeholder, as the
duplicate detector's normalisation regex does. -/
def normNum : List Char → List Char
  | [] => []
  | c :: rest =>
    if c.isDigit || c = '.' then
      'N' :: normNum (rest.dropWhile fun d => d.isDigit || d = '.')
    else c :: normNum rest
termination_by l => l.length
decreasing_by
  · simpa using Nat.lt_succ_of_le (List.dropWhile_sublist _).length_le
  · simp

/-- Normalised first five lines of a text, with duplicates removed (the set
of lines the similarity check compares). -/
def normLines (l : List Char) : List (List Char) :=
  (((splitNL l).take 5).map normNum).dedup

/-- Structural-similarity check of the duplicate detector: more than eighty
percent of the earlier record's normalised line set also occurs in the later
record's set. -/
def simFlag (a b : List Char) : Bool :=
  let aLines := normLines a
  let bLines := normLines b
  let overlap := (aLines.filter fun line => decide (line ∈ bLines)).length
  decide (0 < aLines.length) &&
  decide ((0.8 : ℚ) < (overlap : ℚ) / (aLines.length : ℚ))

/-- Whether position `i` is flagged by the duplicate detector: both `i` and
`i - 1` are tool messages with non-empty extracted text, and either the first
two hundred characters agree exactly or the line sets overlap strongly. -/
def repFlag (msgs : List Message) : ℕ → Bool
  | 0 => false
  | i + 1 =>
    match msgs.get? (i + 1), msgs.get? i with
    | some cur, some prev =>
      if cur.role = "tool" ∧ prev.role = "tool" then
        let a := extractText prev
        let b := extractText cur
        if a = [] ∨ b = [] then false
        else if a.take 200 = b.take 200 then true
        else simFlag a b
      else false
    | _, _ => false

/-- Indices of repetitive consecutive tool outputs. -/
def findRepetitiveToolOutputs (msgs : List Message) : Finset ℕ :=
  (Finset.range msgs.length).filter fun i => repFlag msgs i = true

/-! ### Configuration -/

/-- Resolved plugin configuration. Numeric fields are JavaScript numbers,
modelled as `ℚ`. -/
structure ContextPrunerConfig where
  maxMessages : ℚ
  targetMessages : ℚ
  minImportance : ℚ
  preserveRecent : ℚ
  preserveFirst : ℚ
  autoPrune : Bool
deriving DecidableEq

/-- The default configuration of the source. -/
def DEFAULTS : ContextPrunerConfig :=
  ⟨100, 60, 0.3, 10, 3, true⟩

/-- Raw configuration input. A field whose JavaScript value is missing or not
a number (respectively not a boolean) behaves exactly like an absent field in
the source's typeof guards, so both are modelled as `none`. -/
structure RawConfig where
  maxMessages : Option ℚ
  targetMessages : Option ℚ
  minImportance : Option ℚ
  preserveRecent : Option ℚ
  preserveFirst : Option ℚ
  autoPrune : Option Bool
deriving DecidableEq

/-- First half of configuration resolution: per-field range-guarded adoption
of raw values over the defaults. -/
def adoptRaw (r : RawConfig) : ContextPrunerConfig :=
  { maxMessages :=
      match r.maxMessages with
      | some v => if 20 ≤ v then v else DEFAULTS.maxMessages
      | none => DEFAULTS.maxMessages
    targetMessages :=
      match r.targetMessages with
      | some v => if 10 ≤ v then v else DEFAULTS.targetMessages
      | none => DEFAULTS.targetMessages
    minImportance :=
      match r.minImportance with
      | some v => if 0 ≤ v ∧ v ≤ 1 then v else DEFAULTS.minImportance
      | none => DEFAULTS.minImportance
    preserveRecent :=
      match r.preserveRecent with
      | some v => if 1 ≤ v then v else DEFAULTS.preserveRecent
      | none => DEFAULTS.preserveRecent
    preserveFirst :=
      match r.preserveFirst with
      | some v => if 1 ≤ v then v else DEFAULTS.preserveFirst
      | none => DEFAULTS.preserveFirst
    autoPrune := (r.autoPrune).getD DEFAULTS.autoPrune }

/-- Second half of configuration resolution: the three defensive clamping
steps of the validate-constraints block. -/
def clampConfig (c : ContextPrunerConfig) : ContextPrunerConfig :=
  let preserveRecent2 :=
    if c.targetMessages ≤ c.preserveRecent then max 1 (c.targetMessages - 5)
    else c.preserveRecent
  { maxMessages :=
      if c.maxMessages ≤ c.targetMessages then c.targetMessages + 40
      else c.maxMessages
    targetMessages := c.targetMessages
    minImportance := c.minImportance
    preserveRecent := preserveRecent2
    preserveFirst :=
      if c.targetMessages ≤ c.preserveFirst + preserveRecent2 then
        max 1 (c.targetMessages - preserveRecent2 - 5)
      else c.preserveFirst
    autoPrune := c.autoPrune }

/-- Configuration resolution: defaults when no raw object is present (the
source returns before clamping in that case), otherwise adoption followed by
clamping. -/
def resolveConfig (raw : Option RawConfig) : ContextPrunerConfig :=
  match raw with
  | none => DEFAULTS
  | some r => clampConfig (adoptRaw r)

/-! ### The pruning engine -/

/-- Result record of one pruning invocation. -/
structure ScoreStats where
  min : ℚ
  max : ℚ
  avg : ℚ
deriving DecidableEq

/-- Result of `pruneMessages`. -/
structure PruneResult where
  kept : List Message
  removedCount : ℕ
  originalCount : ℕ
  removedScores : ScoreStats
deriving DecidableEq

/-- Scored message entry built by the engine for every position. -/
structure ScoredMessage where
  index : ℕ
  message : Message
  score : ℚ
  prot : Bool
deriving DecidableEq

/-- JavaScript rounding to the nearest integer, halves toward positive
infinity. -/
def jsRound (q : ℚ) : ℤ :=
  ⌊q + 1 / 2⌋

/-- Effective target size after applying the aggressiveness factor, floored
at one more than the protected-zone total. -/
def effectiveTarget (cfg : ContextPrunerConfig) (aggr : ℚ) : ℚ :=
  max (cfg.preserveFirst + cfg.preserveRecent + 1)
    ((jsRound (cfg.targetMessages / aggr) : ℚ))

/-- Whether position `i` is protected: inside the leading zone, inside the
trailing zone, or the final position. The comparisons are the source's
numeric comparisons against the (rational) policy fields. -/
def protAt (msgs : List Message) (cfg : ContextPrunerConfig) (i : ℕ) : Bool :=
  decide ((i : ℚ) < cfg.preserveFirst) ||
  decide ((msgs.length : ℚ) - cfg.preserveRecent ≤ (i : ℚ)) ||
  decide ((i : ℚ) = (msgs.length : ℚ) - 1)

/-- For a tool-result message at position `i` with a truthy back reference,
the position of the nearest earlier message whose tool-call list contains a
matching identifier. The argument of the backward scan is one past the
position to inspect next. -/
def findCallDown (msgs : List Message) (callId : String) : ℕ → Option ℕ
  | 0 => none
  | j + 1 =>
    if (match (msgs.getD j blankMessage).tool_calls with
        | some l => l.any fun tc => tc.id == some callId
        | none => false) then some j
    else findCallDown msgs callId j

/-- The pairing target of position `i`: the tool-call position its back
reference resolves to, if any. -/
def toolPairTarget (msgs : List Message) (i : ℕ) : Option ℕ :=
  match msgs.get? i with
  | some m =>
    match m.tool_call_id with
    | some cid =>
      if m.role = "tool" ∧ cid ≠ "" then findCallDown msgs cid i else none
    | none => none
  | none => none

/-- The symmetric pairing relation built by the engine's pairing map: two
positions are linked when either one's back reference resolves to the other. -/
def pairedB (msgs : List Message) (i j : ℕ) : Bool :=
  toolPairTarget msgs i == some j || toolPairTarget msgs j == some i

/-- The set of positions linked with `i` (the pairing map's entry for `i`;
the map has no entry exactly when this list is empty). -/
def pairedNeighbors (msgs : List Message) (i : ℕ) : List ℕ :=
  (List.range msgs.length).filter fun j => pairedB msgs i j

/-- Strict-order comparator of the candidate sort: candidates below the
minimum-importance floor sort before those at or above it, then ascending by
score. -/
def cmpLt (cfg : ContextPrunerConfig) (a b : ScoredMessage) : Bool :=
  let aBelow : ℕ := if a.score < cfg.minImportance then 0 else 1
  let bBelow : ℕ := if b.score < cfg.minImportance then 0 else 1
  if aBelow ≠ bBelow then decide (aBelow < bBelow)
  else decide (a.score < b.score)

/-- Stable insertion of one element into a sorted list: the element goes in
front of the first position that is not strictly smaller. -/
def insertLt {α : Type} (lt : α → α → Bool) (x : α) : List α → List α
  | [] => [x]
  | y :: ys => if lt y x then y :: insertLt lt x ys else x :: y :: ys

/-- Stable ascending sort by a strict comparator, modelling the JavaScript
stable `Array.prototype.sort`. -/
def sortLt {α : Type} (lt : α → α → Bool) : List α → List α
  | [] => []
  | x :: xs => insertLt lt x (sortLt lt xs)

/-- Score and tag every message: the scorer's value capped at 0.2 for
positions flagged by the duplicate detector, plus the protected flag. -/
def scoredOf (msgs : List Message) (cfg : ContextPrunerConfig) :
    List ScoredMessage :=
  let rep := findRepetitiveToolOutputs msgs
  (List.range msgs.length).map fun i =>
    let m := msgs.getD i blankMessage
    let sc := scoreMessage m
    ⟨i, m, if i ∈ rep then min sc 0.2 else sc, protAt msgs cfg i⟩

/-- Mark a candidate's pair cluster as removed: every directly paired index,
plus (one transitive level) every unprotected index paired to those. -/
def addPairCluster (msgs : List Message) (cfg : ContextPrunerConfig)
    (pn : List ℕ) (acc : Finset ℕ) : Finset ℕ :=
  pn.foldl
    (fun a idx =>
      (pairedNeighbors msgs idx).foldl
        (fun b t => if protAt msgs cfg t then b else insert t b)
        (insert idx a))
    acc

/-- The greedy removal loop over the ranked candidates; stops as soon as the
removal quota is reached, skips candidates whose direct pair contains a
protected position, otherwise removes the candidate or its whole cluster. -/
def removeLoop (msgs : List Message) (cfg : ContextPrunerConfig) (need : ℚ) :
    List ScoredMessage → Finset ℕ → Finset ℕ
  | [], acc => acc
  | c :: rest, acc =>
    if need ≤ (acc.card : ℚ) then acc
    else if c.index ∈ acc then removeLoop msgs cfg need rest acc
    else
      let pn := pairedNeighbors msgs c.index
      if pn.isEmpty then removeLoop msgs cfg need rest (insert c.index acc)
      else if pn.any (fun idx => protAt msgs cfg idx) then
        removeLoop msgs cfg need rest acc
      else
        removeLoop msgs cfg need rest
          (addPairCluster msgs cfg pn (insert c.index acc))

/-- The set of removed positions computed by one pruning invocation (empty in
the two early-return branches). -/
def pruneRemoved (msgs : List Message) (cfg : ContextPrunerConfig)
    (aggr : ℚ) : Finset ℕ :=
  if msgs.length = 0 then ∅
  else if (msgs.length : ℚ) ≤ effectiveTarget cfg aggr then ∅
  else
    let scored := scoredOf msgs cfg
    let prunable := sortLt (cmpLt cfg) (scored.filter fun s => !s.prot)
    removeLoop msgs cfg ((msgs.length : ℚ) - effectiveTarget cfg aggr)
      prunable ∅

/-- The kept messages: the input filtered to positions outside the removed
set, in original order. -/
def keptList (msgs : List Message) (R : Finset ℕ) : List Message :=
  (msgs.enum.filter fun p => p.1 ∉ R).map Prod.snd

/-- The full pruning entry point: the two early-return branches, then the
kept/removed partition with the removed-score statistics. -/
def pruneMessages (msgs : List Message) (cfg : ContextPrunerConfig)
    (aggr : ℚ) : PruneResult :=
  if msgs.length = 0 then ⟨[], 0, 0, ⟨0, 0, 0⟩⟩
  else if (msgs.length : ℚ) ≤ effectiveTarget cfg aggr then
    ⟨msgs, 0, msgs.length, ⟨0, 0, 0⟩⟩
  else
    let R := pruneRemoved msgs cfg aggr
    let scored := scoredOf msgs cfg
    let removedArr :=
      ((List.range msgs.length).filter fun i => i ∈ R).map fun i =>
        (((scored.get? i).map ScoredMessage.score).getD 0)
    ⟨keptList msgs R, R.card, msgs.length,
     match removedArr with
     | [] => ⟨0, 0, 0⟩
     | h :: t =>
       ⟨t.foldl min h, t.foldl max h,
        (h :: t).sum / ((h :: t).length : ℚ)⟩⟩

/-- Character weight of one message for the token estimate: string content by
length, array content by text-part lengths plus a fixed image weight, plus a
constant metadata overhead. -/
def msgChars (m : Message) : ℕ :=
  (match m.content with
   | some (.str s) => s.length
   | some (.parts ps) =>
     (ps.map fun p =>
       (if (p.type = "text" &&
            (match p.text with
             | some t => decide (t ≠ "")
             | none => false)) = true then (p.text.getD "").length else 0) +
       (if p.type = "image_url" ∨ p.type = "image" then 1000 else 0)).sum
   | none => 0) + 10

/-- Rough token estimate: total characters divided by four, rounded up. -/
def estimateTokens (msgs : List Message) : ℕ :=
  ((msgs.map msgChars).sum + 3) / 4

/-! ### Concrete inputs used by counterexamples and failing-input theorems -/

/-- System message of the pair-orphaning scenario. -/
def bugSys : Message := ⟨"system", some (.str "sys"), none, none, none⟩

/-- Assistant message issuing two parallel tool calls. -/
def bugCall : Message :=
  ⟨"assistant", some (.str "calling tools"), none,
   some [⟨some "c1"⟩, ⟨some "c2"⟩], none⟩

/-- First tool result, answering call c1. -/
def bugRes1 : Message := ⟨"tool", some (.str "result one"), some "c1", none, none⟩

/-- Filler user message with a code block (scores high). -/
def bugUser : Message := ⟨"user", some (.str "```x```"), none, none, none⟩

/-- Second tool result, answering call c2, sitting in the protected tail. -/
def bugRes2 : Message := ⟨"tool", some (.str "result two"), some "c2", none, none⟩

/-- The five-message sequence of the pair-orphaning scenario. -/
def bugMsgs : List Message := [bugSys, bugCall, bugRes1, bugUser, bugRes2]

/-- Policy for the pair-orphaning scenario: effective target four, one
leading and one trailing protected position. -/
def bugCfg : ContextPrunerConfig := ⟨100, 4, 0.3, 1, 1, true⟩

/-- Raw configuration whose resolution violates the protected-total
constraint. -/
def badRaw : RawConfig := ⟨none, some 10, none, some 9, none, none⟩

/-- A tool output used twice in a row by the duplicate-detector witness. -/
def dupTool : Message := ⟨"tool", some (.str "same output"), none, none, none⟩

/-- Two adjacent identical tool outputs. -/
def dupMsgs : List Message := [dupTool, dupTool]

/-! ### Helper lemmas for the scorer -/

/-- A raise-to-at-least rule keeps any lower bound of the running score. -/
theorem raiseTo_ge {q s : ℚ} (b : Bool) (c : ℚ) (h : q ≤ s) :
    q ≤ raiseTo b c s := by
  unfold raiseTo
  split
  · exact le_trans h (le_max_left _ _)
  · exact h

/-- A raise-to-at-least rule whose test fired yields at least its value. -/
theorem le_raiseTo_true (c s : ℚ) : c ≤ raiseTo true c s := by
  unfold raiseTo
  simp

/-- The user-role bonus rule keeps any lower bound that is at most one. -/
theorem userStep_ge {b : Prop} [Decidable b] {q s : ℚ} (hq1 : q ≤ 1)
    (h : q ≤ s) : q ≤ if b then min (s + 0.1) 1 else s := by
  split
  · exact le_min (by linarith) hq1
  · exact h

/-- A non-whitespace character survives a whitespace `dropWhile`. -/
theorem mem_dropWhile_of_not {c : Char} {l : List Char}
    (hc : isJsSpace c = false) (h : c ∈ l) : c ∈ l.dropWhile isJsSpace := by
  induction l with
  | nil => cases h
  | cons a rest ih =>
    rw [List.dropWhile_cons]
    split
    · rcases List.mem_cons.mp h with rfl | h'
      · simp_all
      · exact ih h'
    · exact h

/-- A non-whitespace character of a text survives trimming. -/
theorem mem_jsTrim {c : Char} {l : List Char} (hc : isJsSpace c = false)
    (h : c ∈ l) : c ∈ jsTrim l := by
  unfold jsTrim
  rw [List.mem_reverse]
  exact mem_dropWhile_of_not hc (List.mem_reverse.mpr (mem_dropWhile_of_not hc h))

/-- A successful fence scan means the text contains a backtick. -/
theorem afterFence_tick : ∀ {l r : List Char}, afterFence l = some r →
    '\x60' ∈ l := by
  intro l
  induction l with
  | nil => intro r h; simp [afterFence] at h
  | cons c rest ih =>
    intro r h
    rw [afterFence] at h
    rcases he : eatLit "\x60\x60\x60".data (c :: rest) with _ | r2
    · rw [he] at h
      exact List.mem_cons_of_mem _ (ih h)
    · have hc : c = '\x60' := by
        rw [show ("\x60\x60\x60".data) = ['\x60', '\x60', '\x60'] from rfl,
            eatLit] at he
        split at he
        · rename_i hcc; exact hcc.symm
        · cases he
      subst hc
      exact List.mem_cons_self _ _

/-- A text passing the fenced-code-block test contains a backtick. -/
theorem codeBlockTest_tick {l : List Char} (h : codeBlockTest l = true) :
    '\x60' ∈ l := by
  unfold codeBlockTest at h
  rcases he : afterFence l with _ | r
  · rw [he] at h; cases h
  · exact afterFence_tick he

/-- No alternative of the two low-value regexes contains a backtick. -/
theorem lowWords_no_tick : ∀ w ∈ ackWords ++ greetWords, '\x60' ∉ w.data := by
  decide

/-- A text containing a backtick never matches the low-value patterns. -/
theorem matchesLowValue_of_tick {s : List Char} (h : '\x60' ∈ s) :
    matchesLowValue s = false := by
  cases hm : matchesLowValue s
  · rfl
  · exfalso
    unfold matchesLowValue at hm
    rw [List.any_eq_true] at hm
    obtain ⟨w, hw, hor⟩ := hm
    have htl : '\x60' ∈ s.map Char.toLower :=
      List.mem_map.mpr ⟨'\x60', h, by decide⟩
    rw [Bool.or_eq_true, beq_iff_eq, beq_iff_eq] at hor
    rcases hor with he | he
    · rw [he] at htl
      exact lowWords_no_tick w hw htl
    · rw [he] at htl
      rcases List.mem_append.mp htl with h2 | h2
      · exact lowWords_no_tick w hw h2
      · simp at h2

/-! ### Claims about the scorer -/

/-- C8: for every message, whatever its role, content shape, or missing
fields, `scoreMessage` returns a value in the closed interval from zero to
one. -/
theorem c8_score_unit_interval (msg : Message) :
    0 ≤ scoreMessage msg ∧ scoreMessage msg ≤ 1 := by
  unfold scoreMessage
  dsimp only
  split
  · norm_num
  split
  · norm_num
  split
  · norm_num
  split
  · norm_num
  split
  · norm_num
  constructor
  · refine le_min ?_ (by norm_num)
    refine userStep_ge (by norm_num) ?_
    refine raiseTo_ge _ _ (raiseTo_ge _ _ (raiseTo_ge _ _ (raiseTo_ge _ _
      (raiseTo_ge _ _ (raiseTo_ge _ _ (raiseTo_ge _ _ (raiseTo_ge _ _ ?_)))))))
    split <;> norm_num
  · exact min_le_right _ _

unseal Rat.add Rat.mul Rat.sub Rat.inv Rat.ofScientific in
/-- C5 counterexample: a tool-role message whose trimmed text is exactly
"ok" scores 0.45, not 0.1, because the tool-role rule fires first. -/
theorem c5_tool_ack_counterexample :
    jsTrim (extractText ⟨"tool", some (MessageContent.str "ok"), none, none,
      none⟩) = "ok".data ∧
    scoreMessage ⟨"tool", some (MessageContent.str "ok"), none, none, none⟩
      = 0.45 ∧
    scoreMessage ⟨"tool", some (MessageContent.str "ok"), none, none, none⟩
      ≠ 0.1 := by
  decide

/-- C5 (amended): for every message that is not tool-role and carries no
tool calls, a trimmed text of exactly "ok", "thanks.", or "got it" scores
exactly 0.1. -/
theorem c5_short_ack_scores_low (msg : Message)
    (hrole : msg.role ≠ "tool") (hcalls : toolCallsFlag msg = false)
    (ht : jsTrim (extractText msg) = "ok".data ∨
          jsTrim (extractText msg) = "thanks.".data ∨
          jsTrim (extractText msg) = "got it".data) :
    scoreMessage msg = 0.1 := by
  have htext : extractText msg ≠ [] := by
    intro h
    rcases ht with h1 | h1 | h1 <;> rw [h] at h1 <;>
      exact absurd h1 (by decide)
  have hlow : matchesLowValue (jsTrim (extractText msg)) = true := by
    rcases ht with h1 | h1 | h1 <;> rw [h1] <;> decide
  unfold scoreMessage
  dsimp only
  rw [if_neg (fun hand => htext hand.1), if_neg htext, if_neg hrole,
      if_neg (by simp [hcalls]), if_pos hlow]

/-- C5 witness: a plain user message saying "ok" scores exactly 0.1. -/
theorem c5_short_ack_scores_low_witness :
    scoreMessage ⟨"user", some (MessageContent.str "ok"), none, none, none⟩
      = 0.1 :=
  c5_short_ack_scores_low _ (by decide) (by decide) (Or.inl (by decide))

unseal Rat.add Rat.mul Rat.sub Rat.inv Rat.ofScientific in
/-- C6 counterexample: a tool-role message containing a fenced code block
scores 0.45, below 0.8, because the tool-role rule fires first. -/
theorem c6_tool_code_counterexample :
    codeBlockTest (extractText ⟨"tool", some (MessageContent.str "```x```"),
      none, none, none⟩) = true ∧
    scoreMessage ⟨"tool", some (MessageContent.str "```x```"), none, none,
      none⟩ < 0.8 := by
  decide

/-- C6 (amended): for every message that is not tool-role and carries no
tool calls, a text containing a fenced code block scores at least 0.8. -/
theorem c6_code_block_high_score (msg : Message)
    (hrole : msg.role ≠ "tool") (hcalls : toolCallsFlag msg = false)
    (hcode : codeBlockTest (extractText msg) = true) :
    0.8 ≤ scoreMessage msg := by
  have htext : extractText msg ≠ [] := by
    intro h
    rw [h] at hcode
    exact absurd hcode (by decide)
  have hlow : matchesLowValue (jsTrim (extractText msg)) = false :=
    matchesLowValue_of_tick
      (mem_jsTrim (by decide) (codeBlockTest_tick hcode))
  unfold scoreMessage
  dsimp only
  rw [if_neg (fun hand => htext hand.1), if_neg htext, if_neg hrole,
      if_neg (by simp [hcalls]), if_neg (by simp [hlow])]
  refine le_min ?_ (by norm_num)
  refine userStep_ge (by norm_num) ?_
  refine raiseTo_ge _ _ (raiseTo_ge _ _ (raiseTo_ge _ _ (raiseTo_ge _ _
    (raiseTo_ge _ _ (raiseTo_ge _ _ (raiseTo_ge _ _ ?_))))))
  rw [hcode]
  exact le_raiseTo_true _ _

/-- C6 witness: a user message consisting of a fenced code block scores at
least 0.8. -/
theorem c6_code_block_high_score_witness :
    (0.8 : ℚ) ≤ scoreMessage ⟨"user", some (MessageContent.str "```x```"),
      none, none, none⟩ :=
  c6_code_block_high_score _ (by decide) (by decide) (by decide)

/-! ### Helper lemmas for the pruning engine -/

/-- Insertion produces no new elements. -/
theorem mem_insertLt {α : Type} {lt : α → α → Bool} {x y : α} :
    ∀ {l : List α}, y ∈ insertLt lt x l → y = x ∨ y ∈ l := by
  intro l
  induction l with
  | nil =>
    intro h
    simp [insertLt] at h
    exact Or.inl h
  | cons a as ih =>
    intro h
    rw [insertLt] at h
    split at h
    · rcases List.mem_cons.mp h with rfl | h'
      · exact Or.inr (List.mem_cons_self _ _)
      · rcases ih h' with rfl | h''
        · exact Or.inl rfl
        · exact Or.inr (List.mem_cons_of_mem _ h'')
    · rcases List.mem_cons.mp h with rfl | h'
      · exact Or.inl rfl
      · exact Or.inr h'

/-- Sorting produces no new elements. -/
theorem mem_sortLt {α : Type} {lt : α → α → Bool} {y : α} :
    ∀ {l : List α}, y ∈ sortLt lt l → y ∈ l := by
  intro l
  induction l with
  | nil => intro h; simpa [sortLt] using h
  | cons a as ih =>
    intro h
    rw [sortLt] at h
    rcases mem_insertLt h with rfl | h'
    · exact List.mem_cons_self _ _
    · exact List.mem_cons_of_mem _ (ih h')

/-- Paired neighbours are valid positions. -/
theorem pairedNeighbors_lt {msgs : List Message} {i j : ℕ}
    (h : j ∈ pairedNeighbors msgs i) : j < msgs.length := by
  unfold pairedNeighbors at h
  rw [List.mem_filter] at h
  exact List.mem_range.mp h.1

/-- Membership after the protected-guarded insert fold: either already
present, or an unprotected element of the folded list. -/
theorem mem_protFold (msgs : List Message) (cfg : ContextPrunerConfig) :
    ∀ (l : List ℕ) (b0 : Finset ℕ) (j : ℕ),
      j ∈ l.foldl (fun b t => if protAt msgs cfg t then b else insert t b) b0 →
      j ∈ b0 ∨ (j ∈ l ∧ protAt msgs cfg j = false) := by
  intro l
  induction l with
  | nil => intro b0 j h; exact Or.inl h
  | cons t ts ih =>
    intro b0 j h
    rw [List.foldl_cons] at h
    rcases ih _ j h with h' | ⟨hm, hp⟩
    · by_cases hpt : protAt msgs cfg t = true
      · rw [if_pos hpt] at h'
        exact Or.inl h'
      · rw [if_neg hpt] at h'
        rcases Finset.mem_insert.mp h' with rfl | h''
        · exact Or.inr ⟨List.mem_cons_self _ _, by rwa [Bool.not_eq_true] at hpt⟩
        · exact Or.inl h''
    · exact Or.inr ⟨List.mem_cons_of_mem _ hm, hp⟩

/-- Membership after marking a pair cluster: already present, a direct
neighbour, or an unprotected transitive neighbour. -/
theorem mem_addPairCluster (msgs : List Message) (cfg : ContextPrunerConfig) :
    ∀ (pn : List ℕ) (acc : Finset ℕ) (j : ℕ),
      j ∈ addPairCluster msgs cfg pn acc →
      j ∈ acc ∨ j ∈ pn ∨
        ∃ idx ∈ pn, j ∈ pairedNeighbors msgs idx ∧ protAt msgs cfg j = false := by
  intro pn
  induction pn with
  | nil => intro acc j h; exact Or.inl h
  | cons idx rest ih =>
    intro acc j h
    unfold addPairCluster at h
    rw [List.foldl_cons] at h
    rcases ih _ j h with h' | h' | ⟨idx', hidx', hn, hp⟩
    · rcases mem_protFold msgs cfg _ _ j h' with h'' | ⟨hn, hp⟩
      · rcases Finset.mem_insert.mp h'' with rfl | h3
        · exact Or.inr (Or.inl (List.mem_cons_self _ _))
        · exact Or.inl h3
      · exact Or.inr (Or.inr ⟨idx, List.mem_cons_self _ _, hn, hp⟩)
    · exact Or.inr (Or.inl (List.mem_cons_of_mem _ h'))
    · exact Or.inr (Or.inr ⟨idx', List.mem_cons_of_mem _ hidx', hn, hp⟩)

/-- The removal loop only ever contains unprotected positions. -/
theorem removeLoop_prot (msgs : List Message) (cfg : ContextPrunerConfig)
    (need : ℚ) :
    ∀ (l : List ScoredMessage) (acc : Finset ℕ),
      (∀ j ∈ acc, protAt msgs cfg j = false) →
      (∀ s ∈ l, protAt msgs cfg s.index = false) →
      ∀ j ∈ removeLoop msgs cfg need l acc, protAt msgs cfg j = false := by
  intro l
  induction l with
  | nil =>
    intro acc hacc _ j hj
    rw [removeLoop] at hj
    exact hacc j hj
  | cons c rest ih =>
    intro acc hacc hl j hj
    rw [removeLoop] at hj
    dsimp only at hj
    split at hj
    · exact hacc j hj
    · split at hj
      · exact ih acc hacc (fun s hs => hl s (List.mem_cons_of_mem _ hs)) j hj
      · split at hj
        · refine ih _ ?_ (fun s hs => hl s (List.mem_cons_of_mem _ hs)) j hj
          intro k hk
          rcases Finset.mem_insert.mp hk with rfl | hk'
          · exact hl c (List.mem_cons_self _ _)
          · exact hacc k hk'
        · split at hj
          · exact ih acc hacc (fun s hs => hl s (List.mem_cons_of_mem _ hs)) j hj
          · rename_i hne hany
            refine ih _ ?_ (fun s hs => hl s (List.mem_cons_of_mem _ hs)) j hj
            intro k hk
            rcases mem_addPairCluster msgs cfg _ _ k hk with
              hk' | hk' | ⟨idx, hidx, hkn, hkp⟩
            · rcases Finset.mem_insert.mp hk' with rfl | hk''
              · exact hl c (List.mem_cons_self _ _)
              · exact hacc k hk''
            · have hany' :
                  (pairedNeighbors msgs c.index).any
                    (fun idx => protAt msgs cfg idx) = false := by
                rwa [Bool.not_eq_true] at hany
              have := List.any_eq_false.mp hany' k hk'
              rwa [Bool.not_eq_true] at this
            · exact hkp

/-- The removal loop only ever contains valid positions. -/
theorem removeLoop_lt (msgs : List Message) (cfg : ContextPrunerConfig)
    (need : ℚ) :
    ∀ (l : List ScoredMessage) (acc : Finset ℕ),
      (∀ j ∈ acc, j < msgs.length) →
      (∀ s ∈ l, s.index < msgs.length) →
      ∀ j ∈ removeLoop msgs cfg need l acc, j < msgs.length := by
  intro l
  induction l with
  | nil =>
    intro acc hacc _ j hj
    rw [removeLoop] at hj
    exact hacc j hj
  | cons c rest ih =>
    intro acc hacc hl j hj
    rw [removeLoop] at hj
    dsimp only at hj
    split at hj
    · exact hacc j hj
    · split at hj
      · exact ih acc hacc (fun s hs => hl s (List.mem_cons_of_mem _ hs)) j hj
      · split at hj
        · refine ih _ ?_ (fun s hs => hl s (List.mem_cons_of_mem _ hs)) j hj
          intro k hk
          rcases Finset.mem_insert.mp hk with rfl | hk'
          · exact hl c (List.mem_cons_self _ _)
          · exact hacc k hk'
        · split at hj
          · exact ih acc hacc (fun s hs => hl s (List.mem_cons_of_mem _ hs)) j hj
          · refine ih _ ?_ (fun s hs => hl s (List.mem_cons_of_mem _ hs)) j hj
            intro k hk
            rcases mem_addPairCluster msgs cfg _ _ k hk with
              hk' | hk' | ⟨idx, hidx, hkn, hkp⟩
            · rcases Finset.mem_insert.mp hk' with rfl | hk''
              · exact hl c (List.mem_cons_self _ _)
              · exact hacc k hk''
            · exact pairedNeighbors_lt hk'
            · exact pairedNeighbors_lt hkn

/-- Every scored entry records a valid position and its protected flag. -/
theorem scoredOf_mem {msgs : List Message} {cfg : ContextPrunerConfig}
    {s : ScoredMessage} (h : s ∈ scoredOf msgs cfg) :
    s.index < msgs.length ∧ s.prot = protAt msgs cfg s.index := by
  unfold scoredOf at h
  rw [List.mem_map] at h
  obtain ⟨i, hi, rfl⟩ := h
  rw [List.mem_range] at hi
  exact ⟨hi, rfl⟩

/-- The scored entry at a valid position. -/
theorem scoredOf_get? {msgs : List Message} (cfg : ContextPrunerConfig)
    {i : ℕ} (h : i < msgs.length) :
    (scoredOf msgs cfg).get? i = some
      ⟨i, msgs.getD i blankMessage,
       if i ∈ findRepetitiveToolOutputs msgs
       then min (scoreMessage (msgs.getD i blankMessage)) 0.2
       else scoreMessage (msgs.getD i blankMessage),
       protAt msgs cfg i⟩ := by
  unfold scoredOf
  rw [List.get?_map, List.get?_range h]
  rfl

/-- No removed position is protected. -/
theorem pruneRemoved_prot {msgs : List Message} {cfg : ContextPrunerConfig}
    {aggr : ℚ} {j : ℕ} (hj : j ∈ pruneRemoved msgs cfg aggr) :
    protAt msgs cfg j = false := by
  unfold pruneRemoved at hj
  split at hj
  · simp at hj
  · split at hj
    · simp at hj
    · dsimp only at hj
      refine removeLoop_prot msgs cfg _ _ _ (by simp) ?_ j hj
      intro s hs
      have hs1 := mem_sortLt hs
      rw [List.mem_filter] at hs1
      obtain ⟨hmem, hflag⟩ := hs1
      have h2 := (scoredOf_mem hmem).2
      rw [Bool.not_eq_true'] at hflag
      rw [← h2]
      exact hflag

/-- Every removed position is a valid position. -/
theorem pruneRemoved_lt {msgs : List Message} {cfg : ContextPrunerConfig}
    {aggr : ℚ} {j : ℕ} (hj : j ∈ pruneRemoved msgs cfg aggr) :
    j < msgs.length := by
  unfold pruneRemoved at hj
  split at hj
  · simp at hj
  · split at hj
    · simp at hj
    · dsimp only at hj
      refine removeLoop_lt msgs cfg _ _ _ (by simp) ?_ j hj
      intro s hs
      exact (scoredOf_mem (List.mem_filter.mp (mem_sortLt hs)).1).1

/-- The kept list is a subsequence of the input. -/
theorem keptList_sublist (msgs : List Message) (R : Finset ℕ) :
    (keptList msgs R).Sublist msgs := by
  unfold keptList
  have h2 := (List.filter_sublist (l := msgs.enum)
    (p := fun p => decide (p.1 ∉ R))).map Prod.snd
  rwa [List.enum_map_snd] at h2

/-- A message whose position is not removed appears in the kept list. -/
theorem mem_keptList {msgs : List Message} {R : Finset ℕ} {i : ℕ}
    {m : Message} (hm : msgs.get? i = some m) (hR : i ∉ R) :
    m ∈ keptList msgs R := by
  unfold keptList
  refine List.mem_map.mpr ⟨(i, m), ?_, rfl⟩
  rw [List.mem_filter]
  exact ⟨List.mem_enum_iff_get?.mpr hm, by simpa using hR⟩

/-- Counting the members of a bounded set inside an index range gives its
cardinality. -/
theorem countP_mem_eq_card {n : ℕ} {R : Finset ℕ} (hR : ∀ j ∈ R, j < n) :
    (List.range n).countP (fun i => decide (i ∈ R)) = R.card := by
  have h2 : ((List.range n).filter fun i => decide (i ∈ R)).Nodup :=
    (List.nodup_range n).filter _
  have h1 : ((List.range n).filter fun i => decide (i ∈ R)).toFinset = R := by
    ext j
    simp only [List.mem_toFinset, List.mem_filter, List.mem_range,
      decide_eq_true_eq]
    exact ⟨fun h => h.2, fun h => ⟨hR j h, h⟩⟩
  rw [List.countP_eq_length_filter, ← List.toFinset_card_of_nodup h2, h1]

/-- Keeping the positions outside a bounded removed set partitions the
length. -/
theorem keptList_length {msgs : List Message} {R : Finset ℕ}
    (hR : ∀ j ∈ R, j < msgs.length) :
    (keptList msgs R).length + R.card = msgs.length := by
  unfold keptList
  rw [List.length_map, ← List.countP_eq_length_filter]
  have h1 : (msgs.enum).countP (fun p => decide (p.1 ∉ R))
      = (List.range msgs.length).countP (fun i => decide (i ∉ R)) := by
    rw [← List.enum_map_fst msgs, List.countP_map]
    rfl
  have h2 := List.length_eq_countP_add_countP
    (p := fun i => decide (i ∈ R)) (l := List.range msgs.length)
  rw [List.length_range] at h2
  have h3 : (List.range msgs.length).countP (fun i => decide (i ∉ R))
      = (List.range msgs.length).countP
          (fun a => decide (¬decide (a ∈ R) = true)) := by
    congr 1
    funext a
    simp
  have h4 := countP_mem_eq_card hR
  omega

/-- The kept component of a pruning result is a subsequence of the input. -/
theorem pruneMessages_kept_sublist (msgs : List Message)
    (cfg : ContextPrunerConfig) (aggr : ℚ) :
    (pruneMessages msgs cfg aggr).kept.Sublist msgs := by
  unfold pruneMessages
  split
  · exact List.nil_sublist _
  · split
    · exact List.Sublist.refl _
    · exact keptList_sublist _ _

/-- Sums of natural numbers only shrink along subsequences. -/
theorem sublist_sum_le {l1 l2 : List ℕ} (h : l1.Sublist l2) :
    l1.sum ≤ l2.sum := by
  induction h with
  | slnil => exact le_refl _
  | cons a h ih => rw [List.sum_cons]; omega
  | cons₂ a h ih => rw [List.sum_cons, List.sum_cons]; omega

/-- The token estimate only shrinks along subsequences. -/
theorem estimateTokens_mono {l1 l2 : List Message} (h : l1.Sublist l2) :
    estimateTokens l1 ≤ estimateTokens l2 := by
  unfold estimateTokens
  exact Nat.div_le_div_right
    (Nat.add_le_add_right (sublist_sum_le (h.map msgChars)) 3)

/-- The clamped protected total stays below the target whenever the final
trailing-zone size is more than one below the target. -/
theorem clamp_sum_lt {t M pf : ℚ} (hM : M < t - 1) :
    (if t ≤ pf + M then max 1 (t - M - 5) else pf) + M < t := by
  split
  · have h5 : max 1 (t - M - 5) < t - M := max_lt (by linarith) (by linarith)
    linarith
  · rename_i h
    push_neg at h
    linarith

/-- The clamping block guarantees the trigger constraint, and the
protected-total constraint exactly when the clamped trailing zone stays more
than one below the target. -/
theorem clampConfig_spec (c : ContextPrunerConfig) :
    (clampConfig c).targetMessages < (clampConfig c).maxMessages ∧
    ((clampConfig c).preserveRecent < (clampConfig c).targetMessages - 1 →
      (clampConfig c).preserveFirst + (clampConfig c).preserveRecent <
        (clampConfig c).targetMessages) := by
  unfold clampConfig
  dsimp only
  constructor
  · split
    · linarith
    · rename_i h
      push_neg at h
      linarith
  · intro hlt
    exact clamp_sum_lt hlt

/-! ### Claims about the pruning engine and configuration -/

/-- C3: for every input sequence, policy, and aggressiveness, the kept
length plus the removed count equals the original count, the original count
equals the input length, and the kept sequence is an order-preserving
subsequence of the input. -/
theorem c3_partition_counts_and_order (msgs : List Message)
    (cfg : ContextPrunerConfig) (aggr : ℚ) :
    (pruneMessages msgs cfg aggr).kept.length
        + (pruneMessages msgs cfg aggr).removedCount
      = (pruneMessages msgs cfg aggr).originalCount ∧
    (pruneMessages msgs cfg aggr).originalCount = msgs.length ∧
    (pruneMessages msgs cfg aggr).kept.Sublist msgs := by
  refine ⟨?_, ?_, pruneMessages_kept_sublist msgs cfg aggr⟩
  · unfold pruneMessages
    split
    · simp
    · split
      · simp
      · dsimp only
        exact keptList_length fun j hj => pruneRemoved_lt hj
  · unfold pruneMessages
    split
    · rename_i h0
      simpa using h0.symm
    · split <;> rfl

/-- C10: pruning never increases the token estimate: the estimate of the
kept sequence is at most the estimate of the input sequence. -/
theorem c10_tokens_monotone (msgs : List Message)
    (cfg : ContextPrunerConfig) (aggr : ℚ) :
    estimateTokens (pruneMessages msgs cfg aggr).kept
      ≤ estimateTokens msgs :=
  estimateTokens_mono (pruneMessages_kept_sublist msgs cfg aggr)

/-- C2: every protected position — inside the leading zone, inside the
trailing zone, or the final position — is never removed, and its message is
present in the kept sequence. -/
theorem c2_protected_never_removed (msgs : List Message)
    (cfg : ContextPrunerConfig) (aggr : ℚ) (i : ℕ) (m : Message)
    (hm : msgs.get? i = some m)
    (hp : (i : ℚ) < cfg.preserveFirst ∨
          (msgs.length : ℚ) - cfg.preserveRecent ≤ (i : ℚ) ∨
          i + 1 = msgs.length) :
    i ∉ pruneRemoved msgs cfg aggr ∧
    m ∈ (pruneMessages msgs cfg aggr).kept := by
  have hlen : i < msgs.length := by
    obtain ⟨h, _⟩ := List.get?_eq_some.mp hm
    exact h
  have hprot : protAt msgs cfg i = true := by
    unfold protAt
    rcases hp with h | h | h
    · simp [h]
    · simp [h]
    · have hq : (i : ℚ) = (msgs.length : ℚ) - 1 := by
        have h' := congrArg (fun n : ℕ => (n : ℚ)) h
        push_cast at h'
        linarith
      simp [hq]
  have hnot : i ∉ pruneRemoved msgs cfg aggr := by
    intro hmem
    have hfalse := pruneRemoved_prot hmem
    rw [hprot] at hfalse
    cases hfalse
  refine ⟨hnot, ?_⟩
  unfold pruneMessages
  split
  · rename_i h0
    omega
  · split
    · exact List.get?_mem hm
    · exact mem_keptList hm hnot

/-- C2 witness: position zero of a one-message sequence is protected and the
message survives pruning under the default policy. -/
theorem c2_protected_never_removed_witness :
    0 ∉ pruneRemoved [blankMessage] DEFAULTS 1 ∧
    blankMessage ∈ (pruneMessages [blankMessage] DEFAULTS 1).kept :=
  c2_protected_never_removed [blankMessage] DEFAULTS 1 0 blankMessage rfl
    (Or.inl (by norm_num [DEFAULTS]))

/-- C4: a sequence at or below the effective target — including the empty
sequence — is returned unchanged with a removed count of zero. -/
theorem c4_under_target_noop (msgs : List Message)
    (cfg : ContextPrunerConfig) (aggr : ℚ)
    (h : msgs = [] ∨ (msgs.length : ℚ) ≤ effectiveTarget cfg aggr) :
    (pruneMessages msgs cfg aggr).removedCount = 0 ∧
    (pruneMessages msgs cfg aggr).kept = msgs := by
  unfold pruneMessages
  rcases h with rfl | h
  · simp
  · split_ifs with h0 h1
    · simp [List.length_eq_zero.mp h0]
    · exact ⟨rfl, rfl⟩

unseal Rat.add Rat.mul Rat.sub Rat.inv Rat.ofScientific in
/-- C4 witness: one message under the default policy (effective target
sixty) is returned unchanged. -/
theorem c4_under_target_noop_witness :
    (pruneMessages [blankMessage] DEFAULTS 1).removedCount = 0 ∧
    (pruneMessages [blankMessage] DEFAULTS 1).kept = [blankMessage] :=
  c4_under_target_noop [blankMessage] DEFAULTS 1 (Or.inr (by decide))

/-- C7 counterexample: two adjacent tool messages with empty extracted texts
have byte-identical first two hundred characters, yet the duplicate detector
flags nothing, because it skips empty texts. -/
theorem c7_empty_text_counterexample :
    (extractText ⟨"tool", some (MessageContent.str ""), none, none, none⟩).take 200
      = (extractText ⟨"tool", some (MessageContent.str ""), none, none, none⟩).take 200 ∧
    (⟨"tool", some (MessageContent.str ""), none, none, none⟩ : Message).role
      = "tool" ∧
    findRepetitiveToolOutputs
      [⟨"tool", some (MessageContent.str ""), none, none, none⟩,
       ⟨"tool", some (MessageContent.str ""), none, none, none⟩] = ∅ := by
  decide

/-- C7 (amended): two adjacent tool messages with non-empty extracted texts
and byte-identical first two hundred characters: the later position is
flagged, and its effective score in the engine's scored list is at most
0.2. -/
theorem c7_duplicate_flag_and_penalty (msgs : List Message)
    (cfg : ContextPrunerConfig) (i : ℕ) (m1 m2 : Message)
    (h1 : msgs.get? i = some m1) (h2 : msgs.get? (i + 1) = some m2)
    (hr1 : m1.role = "tool") (hr2 : m2.role = "tool")
    (ha : extractText m1 ≠ []) (hb : extractText m2 ≠ [])
    (htake : (extractText m1).take 200 = (extractText m2).take 200) :
    (i + 1) ∈ findRepetitiveToolOutputs msgs ∧
    ∃ s, (scoredOf msgs cfg).get? (i + 1) = some s ∧ s.score ≤ 0.2 := by
  obtain ⟨hlen, -⟩ := List.get?_eq_some.mp h2
  have hflag : repFlag msgs (i + 1) = true := by
    simp only [repFlag, h1, h2]
    rw [if_pos ⟨hr2, hr1⟩]
    rw [if_neg fun hor => hor.elim ha hb, if_pos htake]
  have hmem : (i + 1) ∈ findRepetitiveToolOutputs msgs := by
    unfold findRepetitiveToolOutputs
    rw [Finset.mem_filter, Finset.mem_range]
    exact ⟨hlen, hflag⟩
  refine ⟨hmem, ⟨_, scoredOf_get? cfg hlen, ?_⟩⟩
  dsimp only
  rw [if_pos hmem]
  exact min_le_right _ _

/-- C7 witness: two identical adjacent tool outputs, the later one flagged
and penalised to at most 0.2. -/
theorem c7_duplicate_flag_and_penalty_witness :
    1 ∈ findRepetitiveToolOutputs dupMsgs ∧
    ∃ s, (scoredOf dupMsgs DEFAULTS).get? 1 = some s ∧ s.score ≤ 0.2 :=
  c7_duplicate_flag_and_penalty dupMsgs DEFAULTS 0 dupTool dupTool rfl rfl
    rfl rfl (by decide) (by decide) rfl

unseal Rat.add Rat.mul Rat.sub Rat.inv Rat.ofScientific in
/-- C9 counterexample: resolving a raw configuration with target ten and
trailing zone nine yields preserveFirst one, so the protected total equals
the target instead of staying below it. -/
theorem c9_clamp_counterexample :
    ¬((resolveConfig (some badRaw)).preserveFirst +
        (resolveConfig (some badRaw)).preserveRecent <
        (resolveConfig (some badRaw)).targetMessages) := by
  decide

/-- C9 (amended): every resolved configuration satisfies the trigger
constraint, and it satisfies the protected-total constraint whenever the
resolved trailing zone is more than one below the target. -/
theorem c9_resolve_config_constraints (raw : Option RawConfig) :
    (resolveConfig raw).targetMessages < (resolveConfig raw).maxMessages ∧
    ((resolveConfig raw).preserveRecent
        < (resolveConfig raw).targetMessages - 1 →
      (resolveConfig raw).preserveFirst + (resolveConfig raw).preserveRecent
        < (resolveConfig raw).targetMessages) := by
  rcases raw with _ | r
  · exact ⟨by norm_num [resolveConfig, DEFAULTS],
      fun _ => by norm_num [resolveConfig, DEFAULTS]⟩
  · exact clampConfig_spec (adoptRaw r)

unseal Rat.add Rat.mul Rat.sub Rat.inv Rat.ofScientific in
/-- C9 witness: the default resolution satisfies both constraints. -/
theorem c9_resolve_config_constraints_witness :
    (resolveConfig none).targetMessages < (resolveConfig none).maxMessages ∧
    (resolveConfig none).preserveFirst + (resolveConfig none).preserveRecent
      < (resolveConfig none).targetMessages := by
  obtain ⟨ha, hb⟩ := c9_resolve_config_constraints none
  exact ⟨ha, hb (by decide)⟩

unseal Rat.add Rat.mul Rat.sub Rat.inv Rat.ofScientific in
/-- C1 failing input: in the five-message scenario, position one (the tool
call) is removed while position four (its second, protected tool result)
stays kept, even though the pairing relation links one and four — the
returned result splits a pair. -/
theorem c1_pair_orphaned_at_input :
    pairedB bugMsgs 1 4 = true ∧
    1 ∈ pruneRemoved bugMsgs bugCfg 1 ∧
    4 ∉ pruneRemoved bugMsgs bugCfg 1 ∧
    (pruneMessages bugMsgs bugCfg 1).kept = [bugSys, bugUser, bugRes2] := by
  decide

end ContextPruner
